import Mathlib

/-!
Flowser bootstrap launcher (`cmd/main.go`).

A shallow embedding of the launcher's functions.  Go strings are modelled by
Lean strings (sequences of Unicode characters); every string operation the
program uses (`==`, `strings.HasPrefix` with an ASCII prefix, `strings.Replace`
with an ASCII pattern, `%s` formatting) acts identically on characters and on
the UTF-8 bytes of a well-formed string.

A function of the program that can abort is a function into `Outcome`; a
function that touches the outside world threads a `World` (the files that
exist and the trace of effects performed so far) and reads the answers of the
outside world from an `Env`.
-/

namespace Flowser

/-! ## Outcomes of a Go call -/

/-- How a Go call ends: it returns a value, it panics (deferred calls of the
enclosing frames still run), or the process exits through `os.Exit`
(`log.Fatal`; deferred calls do not run). -/
inductive Outcome (α : Type) where
  | ret (a : α)
  | panic (msg : String)
  | exit (code : Nat)
deriving DecidableEq

/-- The message of the run-time panic raised by dereferencing a nil pointer. -/
def nilDeref : String := "runtime error: invalid memory address or nil pointer dereference"

/-! ## Library string functions -/

/-- Go `strings.HasPrefix(s, pre)`. -/
def stringsHasPrefix (s pre : String) : Bool :=
  pre.data.isPrefixOf s.data

/-- Go `strings.Index(s, substr)` on character lists: the position of the first
occurrence of `substr` in `s`, or `none` (Go: `-1`) when there is none. -/
def stringsIndex (substr : List Char) : List Char → Option Nat
  | [] => if substr = [] then some 0 else none
  | c :: cs =>
    if substr.isPrefixOf (c :: cs) then some 0
    else (stringsIndex substr cs).map (· + 1)

/-- The replacement loop of `strings.Replace` for a non-empty `old`: at most
`n` times, copy the text up to the next occurrence of `old`, write `new`, and
continue after the occurrence; the remainder is copied unchanged. -/
def replaceLoop (old new : List Char) : Nat → List Char → List Char
  | 0, s => s
  | n + 1, s =>
    match stringsIndex old s with
    | none => s
    | some j => s.take j ++ new ++ replaceLoop old new n (s.drop (j + old.length))

/-- The replacement loop of `strings.Replace` for an empty `old`: `new` is
inserted before each character and at the end, at most `n` times in all. -/
def replaceEmpty (new : List Char) : Nat → List Char → List Char
  | 0, s => s
  | _ + 1, [] => new
  | n + 1, c :: cs => new ++ c :: replaceEmpty new n cs

/-- Go `strings.Replace(s, old, new, n)`: the first `n` non-overlapping
occurrences of `old` are replaced by `new`; a negative `n` means no limit. -/
def stringsReplace (s old new : String) (n : Int) : String :=
  if old = new ∨ n = 0 then s
  else
    let limit : Nat := if n < 0 then s.length + 1 else n.toNat
    if old.data = [] then ⟨replaceEmpty new.data limit s.data⟩
    else ⟨replaceLoop old.data new.data limit s.data⟩

/-! ## Asset naming and version derivation -/

/-- Source `getAssetName`, with `runtime.GOOS` and `runtime.GOARCH` as
parameters. -/
def getAssetName (goos goarch version : String) : Outcome String :=
  let isArm := stringsHasPrefix goarch "arm"
  if goos = "darwin" then
    if isArm then .ret ("Flowser-" ++ version ++ "-arm64-mac.zip")
    else .ret ("Flowser-" ++ version ++ "-mac.zip")
  else .panic "Not implemented"

/-- The version derived from a release tag in `getLatestRelease`:
`strings.Replace(tag, "v", "", 1)`. -/
def latestVersion (tag : String) : String :=
  stringsReplace tag "v" "" 1

/-! ## The outside world -/

/-- Error values of the `os` package, grouped the way `os.IsNotExist` tells
them apart: `notExist` stands for the errors it recognises (`ErrNotExist`,
`ENOENT`), the other constructors for errors it does not. -/
inductive OsError where
  | notExist
  | permission
  | other (msg : String)
deriving DecidableEq

/-- Go `os.IsNotExist(err)`; `none` is the nil error. -/
def osIsNotExist : Option OsError → Bool
  | some .notExist => true
  | _ => false

/-- The fields of `github.ReleaseAsset` the program reads; both are pointers
in Go, `none` is nil. -/
structure ReleaseAsset where
  Name : Option String
  BrowserDownloadURL : Option String
deriving DecidableEq

/-- The fields of `github.RepositoryRelease` the program reads. -/
structure RepositoryRelease where
  TagName : Option String
  Assets : List ReleaseAsset

/-- How `uz.Extract()` of `go-unzip` ends: it returns nil, returns an error, or
panics. -/
inductive ExtractResult where
  | ok
  | err (msg : String)
  | panic (msg : String)
deriving DecidableEq

/-- One observable action on the outside world. -/
inductive Effect where
  | stat (path : String)
  | latestRelease (owner repo : String)
  | httpGet (url : String)
  | create (path : String)
  | log (msg : String)
  | copy (url : String) (file : Option String)
  | closeFile (file : Option String)
  | closeBody (url : String)
  | extract (src dest : String)
  | remove (path : String)
  | exec (name : String) (args : List String)
deriving DecidableEq

/-- The answers of the outside world to the program's calls. -/
structure Env where
  /-- The constant `runtime.GOOS`. -/
  GOOS : String
  /-- The constant `runtime.GOARCH`. -/
  GOARCH : String
  /-- The error returned by `os.Stat(path)` (`none` is nil: the path exists). -/
  stat : String → Option OsError
  /-- The result of `client.Repositories.GetLatestRelease`. -/
  latestRelease : Except String RepositoryRelease
  /-- Whether `http.Get(url)` yields a response (otherwise `resp` is nil). -/
  httpGet : String → Bool
  /-- Whether `os.Create(name)` yields a file (otherwise `out` is nil). -/
  create : String → Bool
  /-- Whether `io.Copy` reports an error. -/
  copyErr : Bool
  /-- How the extraction ends. -/
  extract : ExtractResult
  /-- The files the extraction has written by the time it ends. -/
  extracted : List String
  /-- The error returned by `os.Remove(path)` (`none` is nil: the file is
  removed; with an error the file stays). -/
  remove : String → Option OsError
  /-- The error returned by `cmd.Run()` for a command and its arguments. -/
  cmdRun : String → List String → Option String

/-- The state of the outside world: the paths at which a file exists, and the
effects performed so far, oldest first. -/
structure World where
  files : List String
  trace : List Effect

/-- Record one effect at the end of the trace. -/
def World.emit (w : World) (e : Effect) : World :=
  { w with trace := w.trace ++ [e] }

/-- Go `os.Create(name)` when it succeeds: a file exists at `name` afterwards. -/
def World.addFile (w : World) (name : String) : World :=
  { w with files := if name ∈ w.files then w.files else name :: w.files }

/-- Go `os.Remove(path)`, whose error result the program discards: the call is
recorded; when it succeeds no file exists at `path` afterwards, when it fails
the files are as before. -/
def osRemove (env : Env) (path : String) (w : World) : World :=
  { files := if env.remove path = none then w.files.filter (· ≠ path) else w.files,
    trace := w.trace ++ [Effect.remove path] }

/-! ## The program -/

/-- Source `getInstallDir`. -/
def getInstallDir (goos : String) : Outcome String :=
  if goos = "darwin" then .ret "/Applications/Flowser.app"
  else .panic "Not implemented"

/-- Source `IsInstalled`: the argument `getInstallDir()` is evaluated before
`os.Stat` is called. -/
def IsInstalled (env : Env) (w : World) : World × Outcome Bool :=
  match getInstallDir env.GOOS with
  | .ret dir =>
    let err := env.stat dir
    (w.emit (.stat dir), .ret (!osIsNotExist err))
  | .panic m => (w, .panic m)
  | .exit c => (w, .exit c)

/-- The `for ... range release.Assets` loop of `getLatestRelease` and the
`panic` after it.  In `*asset.Name == getAssetName(latestVersion)` the call is
evaluated before the pointer is dereferenced. -/
def findAsset (goos goarch version : String) :
    List ReleaseAsset → Outcome (ReleaseAsset × String)
  | [] => .panic "No asset found"
  | asset :: rest =>
    match getAssetName goos goarch version with
    | .ret expected =>
      match asset.Name with
      | none => .panic nilDeref
      | some name =>
        if name = expected then .ret (asset, version)
        else findAsset goos goarch version rest
    | .panic m => .panic m
    | .exit c => .exit c

/-- Source `getLatestRelease`. -/
def getLatestRelease (env : Env) (w : World) : World × Outcome (ReleaseAsset × String) :=
  let w1 := w.emit (.latestRelease "onflowser" "flowser")
  match env.latestRelease with
  | .error e => (w1.emit (.log e), .exit 1)
  | .ok release =>
    match release.TagName with
    | none => (w1, .panic nilDeref)
    | some tag => (w1, findAsset env.GOOS env.GOARCH (latestVersion tag) release.Assets)

/-- The part of `downloadLatestReleaseAsset` after `defer out.Close()`: the
log line, `io.Copy`, the check of its error and `out.Name()`; `out` is the
name of the created file, or `none` when `os.Create` gave nil. -/
def copyBody (env : Env) (url version : String) (out : Option String) (w : World) :
    World × Outcome String :=
  let w1 := w.emit (.log ("Downloading latest Flowser release " ++ version))
  let w2 := w1.emit (.copy url out)
  if env.copyErr then (w2, .panic "Install failed")
  else
    match out with
    | some name => (w2, .ret name)
    | none => (w2, .panic nilDeref)

/-- The part of `downloadLatestReleaseAsset` after `defer resp.Body.Close()`:
`os.Create`, then the rest under the deferred `out.Close()`. -/
def createBody (env : Env) (asset : ReleaseAsset) (url version : String) (w : World) :
    World × Outcome String :=
  match asset.Name with
  | none => (w, .panic nilDeref)
  | some name =>
    let w1 := w.emit (.create name)
    let out : Option String := if env.create name then some name else none
    let w2 := if env.create name then w1.addFile name else w1
    let (w3, r) := copyBody env url version out w2
    (w3.emit (.closeFile out), r)

/-- Source `downloadLatestReleaseAsset`.  A nil `resp` makes the evaluation of
`resp.Body.Close` in the `defer` statement panic. -/
def downloadLatestReleaseAsset (env : Env) (w : World) : World × Outcome String :=
  match getLatestRelease env w with
  | (w1, .ret (releaseAsset, releaseVersion)) =>
    match releaseAsset.BrowserDownloadURL with
    | none => (w1, .panic nilDeref)
    | some url =>
      let w2 := w1.emit (.httpGet url)
      if env.httpGet url then
        let (w3, r) := createBody env releaseAsset url releaseVersion w2
        (w3.emit (.closeBody url), r)
      else (w2, .panic nilDeref)
  | (w1, .panic m) => (w1, .panic m)
  | (w1, .exit c) => (w1, .exit c)

/-- The `switch runtime.GOOS` of `Install`: on darwin
`unzip.New(assetDownloadPath, "/Applications")` and `uz.Extract()`, whose
error result is discarded. -/
def installSwitch (env : Env) (assetDownloadPath : String) (w : World) :
    World × Outcome Unit :=
  if env.GOOS = "darwin" then
    let w1 := w.emit (.extract assetDownloadPath "/Applications")
    let w2 : World := { w1 with files := w1.files ++ env.extracted }
    match env.extract with
    | .ok => (w2, .ret ())
    | .err _ => (w2, .ret ())
    | .panic m => (w2, .panic m)
  else (w, .panic "Not implemented")

/-- Source `Install`: the deferred `os.Remove(assetDownloadPath)` runs when the
switch returns or panics. -/
def Install (env : Env) (w : World) : World × Outcome Unit :=
  match downloadLatestReleaseAsset env w with
  | (w1, .ret assetDownloadPath) =>
    match installSwitch env assetDownloadPath w1 with
    | (w2, .exit c) => (w2, .exit c)
    | (w2, r) => (osRemove env assetDownloadPath w2, r)
  | (w1, .panic m) => (w1, .panic m)
  | (w1, .exit c) => (w1, .exit c)

/-- Source `runDarwin`: `log.Fatal(err)` logs the error and exits with status 1. -/
def runDarwin (env : Env) (location : String) (w : World) : World × Outcome Unit :=
  let name := "/Applications/Flowser.app/Contents/MacOS/Flowser"
  let args := ["--project-path=" ++ location]
  let w1 := w.emit (.exec name args)
  match env.cmdRun name args with
  | none => (w1, .ret ())
  | some e => (w1.emit (.log e), .exit 1)

/-- Source `Run`. -/
def Run (env : Env) (location : String) (w : World) : World × Outcome Unit :=
  if env.GOOS = "darwin" then runDarwin env location w
  else (w, .panic "Not implemented")

/-- Source `main`. -/
def main (env : Env) (w : World) : World × Outcome Unit :=
  match IsInstalled env w with
  | (w1, .ret true) =>
    (w1.emit (.log "Flowser is already installed in /Applications/Flowser.app"), .ret ())
  | (w1, .ret false) => Install env w1
  | (w1, .panic m) => (w1, .panic m)
  | (w1, .exit c) => (w1, .exit c)

/-! ## Sample inputs -/

/-- A release tagged `v1.2.3` with one archive per architecture. -/
def sampleRelease : RepositoryRelease :=
  { TagName := some "v1.2.3",
    Assets := [⟨some "Flowser-1.2.3-mac.zip", some "https://example.org/intel.zip"⟩,
               ⟨some "Flowser-1.2.3-arm64-mac.zip", some "https://example.org/arm.zip"⟩] }

/-- An ARM Mac on which nothing is installed and every call succeeds. -/
def sampleEnv : Env :=
  { GOOS := "darwin", GOARCH := "arm64",
    stat := fun _ => some .notExist,
    latestRelease := .ok sampleRelease,
    httpGet := fun _ => true,
    create := fun _ => true,
    copyErr := false,
    extract := .ok,
    extracted := ["/Applications/Flowser.app"],
    remove := fun _ => none,
    cmdRun := fun _ _ => none }

/-- A world without files in which nothing has happened yet. -/
def emptyWorld : World := { files := [], trace := [] }

/-- The sample Mac with an install path that may not be inspected. -/
def deniedEnv : Env :=
  { sampleEnv with stat := fun _ => some .permission }

/-- The sample machine running Windows. -/
def windowsEnv : Env :=
  { sampleEnv with GOOS := "windows", GOARCH := "amd64" }

/-- The sample Mac on which extraction returns an error. -/
def badZipEnv : Env :=
  { sampleEnv with extract := .err "zip: not a valid zip file", extracted := [] }

/-- The sample Mac on which the connection breaks during the download. -/
def brokenCopyEnv : Env :=
  { sampleEnv with copyErr := true }

/-- The sample Mac on which the downloaded archive may not be removed. -/
def stuckEnv : Env :=
  { sampleEnv with remove := fun _ => some .permission }

/-- A release whose first asset has no name and whose second asset is the
archive for an ARM Mac. -/
def namelessRelease : RepositoryRelease :=
  { TagName := some "v1.2.3",
    Assets := [⟨none, some "https://example.org/unnamed"⟩,
               ⟨some "Flowser-1.2.3-arm64-mac.zip", some "https://example.org/arm.zip"⟩] }

/-- The sample Mac when the release index answers with `namelessRelease`. -/
def namelessEnv : Env :=
  { sampleEnv with latestRelease := .ok namelessRelease }

/-! ## Helper lemmas -/

theorem stringsHasPrefix_iff (s pre : String) :
    stringsHasPrefix s pre = true ↔ ∃ rest : String, s = pre ++ rest := by
  unfold stringsHasPrefix
  rw [List.isPrefixOf_iff_prefix]
  constructor
  · rintro ⟨t, ht⟩
    refine ⟨⟨t⟩, ?_⟩
    apply String.ext
    simp [String.data_append, ht]
  · rintro ⟨rest, rfl⟩
    exact ⟨rest.data, by simp [String.data_append]⟩

theorem stringsIndex_cons_self (c : Char) (cs : List Char) :
    stringsIndex [c] (c :: cs) = some 0 := by
  simp [stringsIndex, List.isPrefixOf]

theorem latestVersion_v_append (rest : String) : latestVersion ("v" ++ rest) = rest := by
  have hd : ("v" ++ rest).data = 'v' :: rest.data := by
    simp [String.data_append]
  have hv : ("v" : String).data = ['v'] := rfl
  have hne : ¬ (("v" : String) = "" ∨ (1 : Int) = 0) := by decide
  unfold latestVersion stringsReplace
  rw [if_neg hne]
  simp only [hv, hd]
  simp [replaceLoop, stringsIndex_cons_self]

/-! ## Asset naming and version derivation: theorems -/

/-- C1: on darwin `getAssetName` returns `Flowser-<v>-arm64-mac.zip` when the
architecture string begins with `arm` and `Flowser-<v>-mac.zip` otherwise, for
every version `v` and architecture `a`; with the two instances of the
specification. -/
theorem getAssetName_darwin (v a : String) :
    ((∃ rest : String, a = "arm" ++ rest) →
      getAssetName "darwin" a v = .ret ("Flowser-" ++ v ++ "-arm64-mac.zip")) ∧
    ((¬ ∃ rest : String, a = "arm" ++ rest) →
      getAssetName "darwin" a v = .ret ("Flowser-" ++ v ++ "-mac.zip")) ∧
    getAssetName "darwin" "arm64" "1.2.3" = .ret "Flowser-1.2.3-arm64-mac.zip" ∧
    getAssetName "darwin" "amd64" "1.2.3" = .ret "Flowser-1.2.3-mac.zip" := by
  refine ⟨?_, ?_, by decide, by decide⟩
  · intro h
    have hp := (stringsHasPrefix_iff a "arm").2 h
    simp [getAssetName, hp]
  · intro h
    have hp : stringsHasPrefix a "arm" = false := by
      cases hb : stringsHasPrefix a "arm"
      · rfl
      · exact absurd ((stringsHasPrefix_iff a "arm").1 hb) h
    simp [getAssetName, hp]

/-- Witness of C1 at version `1.2.3`: architecture `armv7` takes the ARM name,
architecture `riscv64` the other one. -/
theorem getAssetName_darwin_witness :
    getAssetName "darwin" "armv7" "1.2.3" = .ret ("Flowser-" ++ "1.2.3" ++ "-arm64-mac.zip") ∧
    getAssetName "darwin" "riscv64" "1.2.3" = .ret ("Flowser-" ++ "1.2.3" ++ "-mac.zip") :=
  ⟨(getAssetName_darwin "1.2.3" "armv7").1 ⟨"v7", by decide⟩,
   (getAssetName_darwin "1.2.3" "riscv64").2.1 (by
      rw [← stringsHasPrefix_iff]; decide)⟩

/-- C2: for a release tag that begins with `v`, that is a tag `v ++ rest`, the
derived version is `rest`, the tag without this one leading `v`; so `v2.0.0`
gives `2.0.0` and `vv1` gives `v1`. -/
theorem latestVersion_strips_leading_v (rest : String) :
    latestVersion ("v" ++ rest) = rest ∧
    latestVersion "v2.0.0" = "2.0.0" ∧
    latestVersion "vv1" = "v1" :=
  ⟨latestVersion_v_append rest, by decide, by decide⟩

/-- C3, at the failing input: the tag `1.0.0-dev` does not begin with `v`, yet
the derived version is `1.0.0-de`, not the tag: the first `v` of the tag is
removed wherever it stands. -/
theorem latestVersion_removes_inner_v :
    stringsHasPrefix "1.0.0-dev" "v" = false ∧
    latestVersion "1.0.0-dev" = "1.0.0-de" ∧
    latestVersion "1.0.0-dev" ≠ "1.0.0-dev" := by
  decide

/-! ## Release resolution -/

theorem findAsset_eq_find (goos goarch version expected : String)
    (h : getAssetName goos goarch version = .ret expected) (assets : List ReleaseAsset)
    (hn : ∀ a ∈ assets, a.Name ≠ none) :
    findAsset goos goarch version assets =
      match assets.find? (fun a => decide (a.Name = some expected)) with
      | some a => .ret (a, version)
      | none => .panic "No asset found" := by
  induction assets with
  | nil => simp [findAsset]
  | cons a rest ih =>
    have hrest : ∀ b ∈ rest, b.Name ≠ none := fun b hb => hn b (List.mem_cons_of_mem _ hb)
    have ha : a.Name ≠ none := hn a (List.mem_cons_self _ _)
    cases hname : a.Name with
    | none => exact absurd hname ha
    | some name =>
      by_cases heq : name = expected
      · simp [findAsset, h, hname, heq, List.find?_cons]
      · simp [findAsset, h, hname, heq, List.find?_cons, ih hrest]

/-- Entries that carry a name other than the expected one are passed over. -/
theorem findAsset_skip (goos goarch version expected : String)
    (h : getAssetName goos goarch version = .ret expected)
    (before rest : List ReleaseAsset)
    (hb : ∀ b ∈ before, b.Name ≠ none ∧ b.Name ≠ some expected) :
    findAsset goos goarch version (before ++ rest) = findAsset goos goarch version rest := by
  induction before with
  | nil => rfl
  | cons b bs ih =>
    have hbs : ∀ c ∈ bs, c.Name ≠ none ∧ c.Name ≠ some expected :=
      fun c hc => hb c (List.mem_cons_of_mem _ hc)
    obtain ⟨hnone, hne⟩ := hb b (List.mem_cons_self _ _)
    cases hname : b.Name with
    | none => exact absurd hname hnone
    | some name =>
      have hneq : name ≠ expected := fun e => hne (by rw [hname, e])
      simp [findAsset, h, hname, hneq, ih hbs]

/-- A returned asset carries the expected name, comes with the version the
loop was given, and every entry before it has another name. -/
theorem findAsset_ret_split (goos goarch version expected : String)
    (h : getAssetName goos goarch version = .ret expected)
    (assets : List ReleaseAsset) (a : ReleaseAsset) (v : String)
    (hr : findAsset goos goarch version assets = .ret (a, v)) :
    v = version ∧ a.Name = some expected ∧
    ∃ before after, assets = before ++ a :: after ∧
      ∀ b ∈ before, b.Name ≠ none ∧ b.Name ≠ some expected := by
  induction assets with
  | nil => simp [findAsset] at hr
  | cons x rest ih =>
    cases hname : x.Name with
    | none => simp [findAsset, h, hname] at hr
    | some name =>
      by_cases heq : name = expected
      · simp [findAsset, h, hname, heq] at hr
        obtain ⟨rfl, rfl⟩ := hr
        exact ⟨rfl, by rw [hname, heq], [], rest, rfl, by simp⟩
      · simp [findAsset, h, hname, heq] at hr
        obtain ⟨hv, hn, before, after, hsplit, hbefore⟩ := ih hr
        refine ⟨hv, hn, x :: before, after, by rw [hsplit]; rfl, ?_⟩
        intro b hb
        rcases List.mem_cons.1 hb with rfl | hb
        · refine ⟨by rw [hname]; simp, ?_⟩
          rw [hname]
          intro e
          exact heq (Option.some.inj e)
        · exact hbefore b hb

/-- Without an entry of the expected name the loop ends in a panic. -/
theorem findAsset_no_match (goos goarch version expected : String)
    (h : getAssetName goos goarch version = .ret expected)
    (assets : List ReleaseAsset) (hn : ∀ a ∈ assets, a.Name ≠ some expected) :
    ∃ m, findAsset goos goarch version assets = .panic m := by
  induction assets with
  | nil => exact ⟨_, rfl⟩
  | cons x rest ih =>
    have hrest : ∀ a ∈ rest, a.Name ≠ some expected :=
      fun a ha => hn a (List.mem_cons_of_mem _ ha)
    cases hname : x.Name with
    | none => exact ⟨nilDeref, by simp [findAsset, h, hname]⟩
    | some name =>
      have hneq : name ≠ expected := fun e => hn x (List.mem_cons_self _ _) (by rw [hname, e])
      obtain ⟨m, hm⟩ := ih hrest
      exact ⟨m, by simp [findAsset, h, hname, hneq, hm]⟩

/-- C4, counterexample: on the sample Mac the release `namelessRelease` has an
entry named exactly `getAssetName` of the derived version, yet
`getLatestRelease` returns no asset: the nameless entry before it makes the
comparison panic with a nil dereference. -/
theorem getLatestRelease_nameless_first :
    namelessEnv.GOOS = "darwin" ∧
    namelessEnv.latestRelease = .ok namelessRelease ∧
    getAssetName namelessEnv.GOOS namelessEnv.GOARCH (latestVersion "v1.2.3") =
      .ret "Flowser-1.2.3-arm64-mac.zip" ∧
    (∃ a ∈ namelessRelease.Assets, a.Name = some "Flowser-1.2.3-arm64-mac.zip") ∧
    (getLatestRelease namelessEnv emptyWorld).2 = .panic nilDeref ∧
    ¬ ∃ r, (getLatestRelease namelessEnv emptyWorld).2 = .ret r := by
  refine ⟨rfl, rfl, by decide, by decide, by decide, ?_⟩
  rintro ⟨r, hr⟩
  have hp : (getLatestRelease namelessEnv emptyWorld).2 = .panic nilDeref := by decide
  rw [hp] at hr
  cases hr

/-- C4, amended: on darwin, for a fetched release with a tag,
`getLatestRelease` returns an asset exactly when the asset list has an entry
named `getAssetName` of the derived version and every entry before it has a
name (of another value); the asset it returns is the first entry of that name,
together with the derived version; when no entry has that name (the empty list
included) it returns no asset and panics, with `No asset found` when every
entry has a name; and when every entry has a name it returns an asset exactly
when some entry has the expected name. -/
theorem getLatestRelease_selects (env : Env) (w : World) (release : RepositoryRelease)
    (tag : String) (hos : env.GOOS = "darwin") (hrel : env.latestRelease = .ok release)
    (htag : release.TagName = some tag) :
    ∃ expected : String,
      getAssetName env.GOOS env.GOARCH (latestVersion tag) = .ret expected ∧
      ((∃ r, (getLatestRelease env w).2 = .ret r) ↔
        ∃ before a after, release.Assets = before ++ a :: after ∧
          a.Name = some expected ∧
          ∀ b ∈ before, b.Name ≠ none ∧ b.Name ≠ some expected) ∧
      (∀ a v, (getLatestRelease env w).2 = .ret (a, v) →
        v = latestVersion tag ∧ a.Name = some expected ∧
        ∃ before after, release.Assets = before ++ a :: after ∧
          ∀ b ∈ before, b.Name ≠ some expected) ∧
      ((∀ a ∈ release.Assets, a.Name ≠ some expected) →
        (∃ m, (getLatestRelease env w).2 = .panic m) ∧
        ((∀ a ∈ release.Assets, a.Name ≠ none) →
          (getLatestRelease env w).2 = .panic "No asset found")) ∧
      ((∀ a ∈ release.Assets, a.Name ≠ none) →
        ((∃ r, (getLatestRelease env w).2 = .ret r) ↔
          ∃ a ∈ release.Assets, a.Name = some expected)) := by
  obtain ⟨expected, hexp⟩ : ∃ expected, getAssetName env.GOOS env.GOARCH (latestVersion tag)
      = .ret expected := by
    rw [hos]
    unfold getAssetName
    by_cases harm : stringsHasPrefix env.GOARCH "arm" = true <;> simp [harm]
  have hrun : (getLatestRelease env w).2 =
      findAsset env.GOOS env.GOARCH (latestVersion tag) release.Assets := by
    simp only [getLatestRelease, hrel, htag]
  refine ⟨expected, hexp, ?_, ?_, ?_, ?_⟩
  · rw [hrun]
    constructor
    · rintro ⟨⟨a, v⟩, hr⟩
      obtain ⟨-, hn, before, after, hsplit, hbefore⟩ :=
        findAsset_ret_split _ _ _ _ hexp _ a v hr
      exact ⟨before, a, after, hsplit, hn, hbefore⟩
    · rintro ⟨before, a, after, hsplit, hn, hbefore⟩
      refine ⟨(a, latestVersion tag), ?_⟩
      rw [hsplit, findAsset_skip _ _ _ _ hexp before _ hbefore]
      simp [findAsset, hexp, hn]
  · intro a v hav
    rw [hrun] at hav
    obtain ⟨hv, hn, before, after, hsplit, hbefore⟩ :=
      findAsset_ret_split _ _ _ _ hexp _ a v hav
    exact ⟨hv, hn, before, after, hsplit, fun b hb => (hbefore b hb).2⟩
  · intro hnone
    rw [hrun]
    refine ⟨findAsset_no_match _ _ _ _ hexp _ hnone, ?_⟩
    intro hnames
    rw [findAsset_eq_find _ _ _ _ hexp _ hnames]
    have hf : release.Assets.find? (fun a => decide (a.Name = some expected)) = none := by
      rw [List.find?_eq_none]
      intro x hx
      simpa using hnone x hx
    rw [hf]
  · intro hnames
    rw [hrun, findAsset_eq_find _ _ _ _ hexp _ hnames]
    cases hf : release.Assets.find? (fun a => decide (a.Name = some expected)) with
    | none =>
      have hall := List.find?_eq_none.1 hf
      simp only [decide_eq_true_eq] at hall
      constructor
      · rintro ⟨r, hr⟩
        cases hr
      · rintro ⟨a, ha, hn⟩
        exact absurd hn (hall a ha)
    | some a =>
      obtain ⟨hp, before, after, hsplit, -⟩ := List.find?_eq_some.1 hf
      simp only [decide_eq_true_eq] at hp
      constructor
      · intro _
        exact ⟨a, by rw [hsplit]; simp, hp⟩
      · intro _
        exact ⟨_, rfl⟩

/-- Witness of C4 amended: on the sample ARM Mac the release `v1.2.3` has the
expected archive as its second asset, after an entry of another name. -/
theorem getLatestRelease_selects_witness :
    (getLatestRelease sampleEnv emptyWorld).2 =
      .ret (⟨some "Flowser-1.2.3-arm64-mac.zip", some "https://example.org/arm.zip"⟩, "1.2.3") ∧
    ∃ expected : String,
      getAssetName sampleEnv.GOOS sampleEnv.GOARCH (latestVersion "v1.2.3") = .ret expected ∧
      ((∃ r, (getLatestRelease sampleEnv emptyWorld).2 = .ret r) ↔
        ∃ before a after, sampleRelease.Assets = before ++ a :: after ∧
          a.Name = some expected ∧
          ∀ b ∈ before, b.Name ≠ none ∧ b.Name ≠ some expected) ∧
      (∀ a v, (getLatestRelease sampleEnv emptyWorld).2 = .ret (a, v) →
        v = latestVersion "v1.2.3" ∧ a.Name = some expected ∧
        ∃ before after, sampleRelease.Assets = before ++ a :: after ∧
          ∀ b ∈ before, b.Name ≠ some expected) ∧
      ((∀ a ∈ sampleRelease.Assets, a.Name ≠ some expected) →
        (∃ m, (getLatestRelease sampleEnv emptyWorld).2 = .panic m) ∧
        ((∀ a ∈ sampleRelease.Assets, a.Name ≠ none) →
          (getLatestRelease sampleEnv emptyWorld).2 = .panic "No asset found")) ∧
      ((∀ a ∈ sampleRelease.Assets, a.Name ≠ none) →
        ((∃ r, (getLatestRelease sampleEnv emptyWorld).2 = .ret r) ↔
          ∃ a ∈ sampleRelease.Assets, a.Name = some expected)) :=
  ⟨by decide,
   getLatestRelease_selects sampleEnv emptyWorld sampleRelease "v1.2.3" rfl rfl rfl⟩

/-! ## Installation check -/

/-- C5, counterexample: when the stat of the install path fails with
permission denied, an error other than not-found, `IsInstalled` returns true,
not false. -/
theorem IsInstalled_permission_denied :
    deniedEnv.GOOS = "darwin" ∧
    deniedEnv.stat "/Applications/Flowser.app" = some OsError.permission ∧
    (IsInstalled deniedEnv emptyWorld).2 = .ret true ∧
    (IsInstalled deniedEnv emptyWorld).2 ≠ .ret false := by
  decide

/-- C5, amended: on darwin, when the stat of the install path ends in an error,
`IsInstalled` returns false exactly when that error is not-found; for every
other error (such as permission denied) it returns true. -/
theorem IsInstalled_stat_error (env : Env) (w : World) (e : OsError)
    (hos : env.GOOS = "darwin") (hstat : env.stat "/Applications/Flowser.app" = some e) :
    ((IsInstalled env w).2 = .ret false ↔ e = OsError.notExist) ∧
    (e ≠ OsError.notExist → (IsInstalled env w).2 = .ret true) := by
  cases e <;> simp [IsInstalled, getInstallDir, hos, hstat, osIsNotExist]

/-- Witness of C5 amended: permission denied on the sample Mac. -/
theorem IsInstalled_stat_error_witness :
    ((IsInstalled deniedEnv emptyWorld).2 = .ret false ↔
      OsError.permission = OsError.notExist) ∧
    (OsError.permission ≠ OsError.notExist →
      (IsInstalled deniedEnv emptyWorld).2 = .ret true) :=
  IsInstalled_stat_error deniedEnv emptyWorld OsError.permission rfl rfl

/-- C6: on darwin `IsInstalled` performs exactly one effect, the stat of
`/Applications/Flowser.app`, and leaves the files as they are; it returns
false when the stat reports that the path does not exist and true when the
stat succeeds. -/
theorem IsInstalled_darwin (env : Env) (w : World) (hos : env.GOOS = "darwin") :
    (IsInstalled env w).1.trace = w.trace ++ [Effect.stat "/Applications/Flowser.app"] ∧
    (IsInstalled env w).1.files = w.files ∧
    (env.stat "/Applications/Flowser.app" = some OsError.notExist →
      (IsInstalled env w).2 = .ret false) ∧
    (env.stat "/Applications/Flowser.app" = none → (IsInstalled env w).2 = .ret true) := by
  refine ⟨?_, ?_, ?_, ?_⟩
  · simp [IsInstalled, getInstallDir, hos, World.emit]
  · simp [IsInstalled, getInstallDir, hos, World.emit]
  · intro h
    simp [IsInstalled, getInstallDir, hos, h, osIsNotExist]
  · intro h
    simp [IsInstalled, getInstallDir, hos, h, osIsNotExist]

/-- Witness of C6: the sample Mac, where the install path does not exist. -/
theorem IsInstalled_darwin_witness :
    (IsInstalled sampleEnv emptyWorld).1.trace = [Effect.stat "/Applications/Flowser.app"] ∧
    (IsInstalled sampleEnv emptyWorld).2 = .ret false :=
  ⟨(IsInstalled_darwin sampleEnv emptyWorld rfl).1,
   (IsInstalled_darwin sampleEnv emptyWorld rfl).2.2.1 rfl⟩

/-! ## Entry point on an unimplemented OS -/

/-- C7: for every OS string other than `darwin`, `main` panics with
`Not implemented` and leaves the world as it found it: no effect is added to
the trace, so a run from the empty trace ends with the empty trace, and no file
changes. -/
theorem main_not_darwin (env : Env) (w : World) (hos : env.GOOS ≠ "darwin") :
    main env w = (w, .panic "Not implemented") ∧
    (main env { files := w.files, trace := [] }).1.trace = [] := by
  simp [main, IsInstalled, getInstallDir, hos]

/-- Witness of C7: the sample machine running Windows. -/
theorem main_not_darwin_witness :
    main windowsEnv emptyWorld = (emptyWorld, .panic "Not implemented") ∧
    (main windowsEnv { files := emptyWorld.files, trace := [] }).1.trace = [] :=
  main_not_darwin windowsEnv emptyWorld (by decide)

/-! ## Running the application -/

/-- C9: on darwin `Run` launches one child process, the binary
`/Applications/Flowser.app/Contents/MacOS/Flowser` with the single argument
`--project-path=<loc>`; it returns exactly when the child ran without error and
otherwise logs the error and exits with status 1; on every other OS it panics
without any effect. -/
theorem Run_launches (env : Env) (w : World) (loc : String) :
    (env.GOOS = "darwin" →
      (Run env loc w).1.trace =
        w.trace ++ Effect.exec "/Applications/Flowser.app/Contents/MacOS/Flowser"
            ["--project-path=" ++ loc] ::
          (match env.cmdRun "/Applications/Flowser.app/Contents/MacOS/Flowser"
              ["--project-path=" ++ loc] with
            | none => []
            | some e => [Effect.log e]) ∧
      (Run env loc w).1.files = w.files ∧
      ((Run env loc w).2 = .ret () ↔
        env.cmdRun "/Applications/Flowser.app/Contents/MacOS/Flowser"
          ["--project-path=" ++ loc] = none) ∧
      (env.cmdRun "/Applications/Flowser.app/Contents/MacOS/Flowser"
          ["--project-path=" ++ loc] ≠ none → (Run env loc w).2 = .exit 1)) ∧
    (env.GOOS ≠ "darwin" → Run env loc w = (w, .panic "Not implemented")) := by
  constructor
  · intro hos
    cases hrun : env.cmdRun "/Applications/Flowser.app/Contents/MacOS/Flowser"
        ["--project-path=" ++ loc] <;>
      simp [Run, runDarwin, hos, hrun, World.emit]
  · intro hos
    simp [Run, hos]

/-- Witness of C9: a project on the sample Mac, and the same call on Windows. -/
theorem Run_launches_witness :
    (Run sampleEnv "/tmp/project" emptyWorld).1.trace =
      [Effect.exec "/Applications/Flowser.app/Contents/MacOS/Flowser"
        ["--project-path=/tmp/project"]] ∧
    Run windowsEnv "/tmp/project" emptyWorld = (emptyWorld, .panic "Not implemented") :=
  ⟨((Run_launches sampleEnv emptyWorld "/tmp/project").1 rfl).1,
   (Run_launches windowsEnv emptyWorld "/tmp/project").2 (by decide)⟩

/-! ## Download and installation -/

theorem copyBody_ret (env : Env) (url version : String) (out : Option String) (w : World)
    (p : String) (h : (copyBody env url version out w).2 = .ret p) :
    out = some p ∧ env.copyErr = false := by
  unfold copyBody at h
  cases hc : env.copyErr
  · cases out with
    | none => simp [hc] at h
    | some name =>
      simp [hc] at h
      simp [h]
  · simp [hc] at h

theorem createBody_ret (env : Env) (asset : ReleaseAsset) (url version : String) (w : World)
    (p : String) (h : (createBody env asset url version w).2 = .ret p) :
    asset.Name = some p ∧ env.create p = true ∧ env.copyErr = false := by
  unfold createBody at h
  cases hname : asset.Name with
  | none => simp [hname] at h
  | some name =>
    simp only [hname] at h
    have h2 := copyBody_ret env url version _ _ p h
    cases hcr : env.create name
    · simp [hcr] at h2
    · simp [hcr] at h2
      obtain ⟨rfl, hc⟩ := h2
      exact ⟨rfl, hcr, hc⟩

/-- A completed download: the release was resolved, the asset has a URL that
answered, the file named after the asset was created and the copy succeeded. -/
theorem download_ret (env : Env) (w : World) (p : String)
    (h : (downloadLatestReleaseAsset env w).2 = .ret p) :
    ∃ asset version url, (getLatestRelease env w).2 = .ret (asset, version) ∧
      asset.Name = some p ∧ asset.BrowserDownloadURL = some url ∧
      env.httpGet url = true ∧ env.create p = true ∧ env.copyErr = false := by
  unfold downloadLatestReleaseAsset at h
  rcases hg : getLatestRelease env w with ⟨w1, r⟩
  rw [hg] at h
  cases r with
  | panic m => simp at h
  | exit c => simp at h
  | ret av =>
    obtain ⟨asset, version⟩ := av
    simp only at h
    cases hurl : asset.BrowserDownloadURL with
    | none => simp [hurl] at h
    | some url =>
      simp only [hurl] at h
      cases hget : env.httpGet url
      · simp [hget] at h
      · simp only [hget, if_true] at h
        obtain ⟨hn, hc, he⟩ := createBody_ret env asset url version _ p h
        exact ⟨asset, version, url, rfl, hn, hurl, hget, hc, he⟩

/-- The world in which `getLatestRelease` returns: only the release query has
been added to the trace. -/
theorem getLatestRelease_ret_world (env : Env) (w : World) (r : ReleaseAsset × String)
    (h : (getLatestRelease env w).2 = .ret r) :
    (getLatestRelease env w).1 = w.emit (Effect.latestRelease "onflowser" "flowser") := by
  unfold getLatestRelease at h ⊢
  cases hrel : env.latestRelease with
  | error e => simp [hrel] at h
  | ok release =>
    cases htag : release.TagName with
    | none => simp [hrel, htag] at h
    | some tag => simp [htag]

/-- The download once the release is resolved, the response obtained and the
file created: the world it leaves and its outcome, by the result of the copy. -/
theorem download_eq (env : Env) (w : World) (asset : ReleaseAsset)
    (version url name : String)
    (hrel : (getLatestRelease env w).2 = .ret (asset, version))
    (hurl : asset.BrowserDownloadURL = some url) (hname : asset.Name = some name)
    (hget : env.httpGet url = true) (hcreate : env.create name = true) :
    downloadLatestReleaseAsset env w =
      ({ files := if name ∈ w.files then w.files else name :: w.files,
         trace := w.trace ++
          [Effect.latestRelease "onflowser" "flowser", Effect.httpGet url, Effect.create name,
           Effect.log ("Downloading latest Flowser release " ++ version),
           Effect.copy url (some name), Effect.closeFile (some name),
           Effect.closeBody url] },
       if env.copyErr then .panic "Install failed" else .ret name) := by
  have hw := getLatestRelease_ret_world env w _ hrel
  rcases hg : getLatestRelease env w with ⟨w1, r⟩
  rw [hg] at hrel hw
  simp only at hrel hw
  subst hrel hw
  cases hc : env.copyErr <;>
    simp [downloadLatestReleaseAsset, hg, hurl, hget, createBody, hname, hcreate,
      copyBody, hc, World.emit, World.addFile]

/-- C8, counterexample: on the sample Mac where `os.Remove` fails, the download
returns the asset name, the extraction succeeds, the removal is called, and
the archive still exists at that path when `Install` has returned. -/
theorem Install_failed_removal_keeps_archive :
    stuckEnv.GOOS = "darwin" ∧
    (downloadLatestReleaseAsset stuckEnv emptyWorld).2 = .ret "Flowser-1.2.3-arm64-mac.zip" ∧
    (Install stuckEnv emptyWorld).2 = .ret () ∧
    Effect.remove "Flowser-1.2.3-arm64-mac.zip" ∈ (Install stuckEnv emptyWorld).1.trace ∧
    "Flowser-1.2.3-arm64-mac.zip" ∈ (Install stuckEnv emptyWorld).1.files := by
  decide

/-- C8, amended: on darwin, when `downloadLatestReleaseAsset` returns a path
`p` (the name of the selected asset, at which the archive then exists),
`Install` extracts `p` into `/Applications` and then calls `os.Remove(p)` as
its last effect, whatever the extraction does: it returns when the extraction
returned (with or without an error) and panics when the extraction panicked.
When that removal succeeds no file exists at `p` in the resulting world; when
it fails, its error being discarded, the archive is still there. -/
theorem Install_removes_archive (env : Env) (w : World) (p : String)
    (hos : env.GOOS = "darwin") (hd : (downloadLatestReleaseAsset env w).2 = .ret p) :
    (∃ asset version, (getLatestRelease env w).2 = .ret (asset, version) ∧
      asset.Name = some p) ∧
    p ∈ (downloadLatestReleaseAsset env w).1.files ∧
    (Install env w).1.trace = (downloadLatestReleaseAsset env w).1.trace ++
      [Effect.extract p "/Applications", Effect.remove p] ∧
    (Install env w).2 =
      (match env.extract with
        | .ok => .ret ()
        | .err _ => .ret ()
        | .panic m => .panic m) ∧
    (env.remove p = none → p ∉ (Install env w).1.files) ∧
    (env.remove p ≠ none → p ∈ (Install env w).1.files) := by
  obtain ⟨asset, version, url, hg, hn, hurl, hget, hcreate, hcopy⟩ := download_ret env w p hd
  have hdl := download_eq env w asset version url p hg hurl hn hget hcreate
  have hmem : p ∈ (if p ∈ w.files then w.files else p :: w.files) := by
    by_cases hpw : p ∈ w.files <;> simp [hpw]
  refine ⟨⟨asset, version, hg, hn⟩, ?_, ?_, ?_, ?_, ?_⟩
  · rw [hdl]
    exact hmem
  · unfold Install
    rw [hdl, hcopy]
    cases hex : env.extract <;>
      simp [installSwitch, hos, hex, osRemove, World.emit]
  · unfold Install
    rw [hdl, hcopy]
    cases hex : env.extract <;>
      simp [installSwitch, hos, hex, osRemove, World.emit]
  · intro hrm
    unfold Install
    rw [hdl, hcopy]
    cases hex : env.extract <;>
      simp [installSwitch, hos, hex, osRemove, World.emit, hrm]
  · intro hrm
    unfold Install
    rw [hdl, hcopy]
    cases hex : env.extract <;>
      simp [installSwitch, hos, hex, osRemove, World.emit, hrm, hmem]

/-- Witness of C8 amended: on the sample Mac with an archive that fails to
extract and a removal that succeeds, the download returns the asset name and
the archive is gone afterwards. -/
theorem Install_removes_archive_witness :
    (downloadLatestReleaseAsset badZipEnv emptyWorld).2 = .ret "Flowser-1.2.3-arm64-mac.zip" ∧
    "Flowser-1.2.3-arm64-mac.zip" ∈ (downloadLatestReleaseAsset badZipEnv emptyWorld).1.files ∧
    "Flowser-1.2.3-arm64-mac.zip" ∉ (Install badZipEnv emptyWorld).1.files ∧
    (Install badZipEnv emptyWorld).2 = .ret () :=
  have h := Install_removes_archive badZipEnv emptyWorld "Flowser-1.2.3-arm64-mac.zip"
    rfl (by decide)
  ⟨by decide, h.2.1, h.2.2.2.2.1 rfl, h.2.2.2.1⟩

/-- C10: on darwin, when the release is resolved, the response is obtained and
the archive file is created, but `io.Copy` fails, `Install` panics with
`Install failed`; the effects of the run are the release query, the HTTP GET,
the file creation, the log line, the copy and the two deferred closes, so
nothing is extracted and nothing is removed, and the file named after the
asset exists in the resulting world. -/
theorem Install_copy_failure (env : Env) (w : World) (asset : ReleaseAsset)
    (version url name : String) (_hos : env.GOOS = "darwin")
    (hrel : (getLatestRelease env w).2 = .ret (asset, version))
    (hurl : asset.BrowserDownloadURL = some url) (hname : asset.Name = some name)
    (hget : env.httpGet url = true) (hcreate : env.create name = true)
    (hcopy : env.copyErr = true) :
    (Install env w).2 = .panic "Install failed" ∧
    name ∈ (Install env w).1.files ∧
    ∃ suffix, (Install env w).1.trace = w.trace ++ suffix ∧
      suffix = [Effect.latestRelease "onflowser" "flowser", Effect.httpGet url,
        Effect.create name, Effect.log ("Downloading latest Flowser release " ++ version),
        Effect.copy url (some name), Effect.closeFile (some name), Effect.closeBody url] ∧
      (∀ src dest, Effect.extract src dest ∉ suffix) ∧
      (∀ path, Effect.remove path ∉ suffix) := by
  have hdl := download_eq env w asset version url name hrel hurl hname hget hcreate
  rw [hcopy] at hdl
  have hins : Install env w =
      ({ files := if name ∈ w.files then w.files else name :: w.files,
         trace := w.trace ++
          [Effect.latestRelease "onflowser" "flowser", Effect.httpGet url, Effect.create name,
           Effect.log ("Downloading latest Flowser release " ++ version),
           Effect.copy url (some name), Effect.closeFile (some name),
           Effect.closeBody url] },
       .panic "Install failed") := by
    unfold Install
    rw [hdl]
    simp
  rw [hins]
  refine ⟨rfl, ?_, _, rfl, rfl, ?_, ?_⟩
  · by_cases hmem : name ∈ w.files <;> simp [hmem]
  · intro src dest
    simp
  · intro path
    simp

/-- Witness of C10: the sample Mac with a connection that breaks during the
download; the archive stays behind. -/
theorem Install_copy_failure_witness :
    (Install brokenCopyEnv emptyWorld).2 = .panic "Install failed" ∧
    "Flowser-1.2.3-arm64-mac.zip" ∈ (Install brokenCopyEnv emptyWorld).1.files :=
  have h := Install_copy_failure brokenCopyEnv emptyWorld
    ⟨some "Flowser-1.2.3-arm64-mac.zip", some "https://example.org/arm.zip"⟩ "1.2.3"
    "https://example.org/arm.zip" "Flowser-1.2.3-arm64-mac.zip" rfl (by decide) rfl rfl rfl rfl
    rfl
  ⟨h.1, h.2.1⟩

end Flowser
